import Mathlib

/-!
Verification of the structural-inference and range-resolution engine of the
dndgpt PDF extraction tools.  The definitions below are shallow embeddings of
the Python sources in `src/extractorizer/`:

* `pdf_splitter.py`   — document validation, per-level page-range resolution,
                        filename sanitization;
* `content_analyzer.py` — page sampling, per-line feature extraction and
                          content-based heading scoring, structure-quality
                          assessment;
* `toc_extractor.py`  — a second, textually identical copy of
                        `sanitize_filename`.

Python floats appear only as values read from the PDF library (font sizes)
and as literal thresholds; they are embedded as `ℚ`.  Machine integers do not
overflow in Python, so `Int`/`Nat` are exact models.
-/

/- ### Python primitive helpers -/

/-- Model of a dynamically typed Python value as found in a raw TOC entry
returned by `doc.get_toc(simple=False)`.  Only the distinctions tested by the
sources matter: `isinstance(x, int)`, or anything else. -/
inductive PyVal where
  | int : Int → PyVal
  | str : String → PyVal
  | other : PyVal
deriving Repr, DecidableEq

/-- Truth of `isinstance(v, int)` for a modelled Python value. -/
def PyVal.isInt : PyVal → Bool
  | .int _ => true
  | _ => false

/-- Number of words of a Python string as counted by `len(text.split())`:
maximal runs of non-whitespace characters.  (Python splits on Unicode
whitespace; all claims involve ASCII text, where `Char.isWhitespace`
agrees.) -/
def wordCountAux : List Char → Bool → Nat
  | [], _ => 0
  | c :: rest, inWord =>
    if c.isWhitespace then wordCountAux rest false
    else (if inWord then 0 else 1) + wordCountAux rest true

/-- Word count of `text.split()` (see `wordCountAux`). -/
def pyWordCount (text : String) : Nat := wordCountAux text.data false

/-- Truth of the Python regex test `re.match(r'^\d+\.?\s', text)`: one or
more leading digits, an optional dot, then a whitespace character.  Greedy
matching of `\d+` is equivalent to `takeWhile isDigit` here because after
fewer digits the next character is a digit, which matches neither `\.?`'s
continuation nor `\s`. -/
def isNumberedPattern (l : List Char) : Bool :=
  let ds := l.takeWhile Char.isDigit
  let rest := l.dropWhile Char.isDigit
  !ds.isEmpty &&
    (match rest with
     | '.' :: c :: _ => c.isWhitespace
     | c :: _ => c.isWhitespace
     | [] => false)

/-- Truth of Python `text.isupper()` for ASCII text: at least one cased
(alphabetic) character, and every cased character is uppercase. -/
def pyIsUpper (l : List Char) : Bool :=
  l.any Char.isAlpha && l.all (fun c => !c.isAlpha || c.isUpper)

/-- State machine for Python `str.istitle()`: an uppercase letter may only
follow an uncased character, a lowercase letter may only follow a cased
one. -/
def pyIsTitleGo : Bool → List Char → Bool
  | _, [] => true
  | prevCased, c :: rest =>
    if c.isUpper then !prevCased && pyIsTitleGo true rest
    else if c.isLower then prevCased && pyIsTitleGo true rest
    else pyIsTitleGo false rest

/-- Truth of Python `text.istitle()` for ASCII text (requires at least one
cased character). -/
def pyIsTitle (l : List Char) : Bool :=
  l.any Char.isAlpha && pyIsTitleGo false l

/-- Truth of the Python substring test `needle in hay`. -/
def containsSublist (needle hay : List Char) : Bool :=
  hay.tails.any (fun t => needle.isPrefixOf t)

/-- Python's `max(iterable, key=k)` on a nonempty iteration order: scans left
to right keeping the current best and replacing it only on a strictly larger
key, hence it returns the first maximiser in iteration order. -/
def pyMaxByKey (key : String → Nat) : List String → Option String
  | [] => none
  | x :: xs => some (xs.foldl (fun best y => if key y > key best then y else best) x)

/-- Python `str.strip()`: drop leading and trailing whitespace.  (Python
strips Unicode whitespace; every claim involves ASCII strings, on which
`Char.isWhitespace` agrees.) -/
def stripWhitespace (l : List Char) : List Char :=
  ((l.dropWhile Char.isWhitespace).reverse.dropWhile Char.isWhitespace).reverse

/-- Python `text.strip()` at the `String` level. -/
def pyStrip (s : String) : String :=
  ⟨stripWhitespace s.data⟩

/- ### content_analyzer.py — page sampler (analyze_content_structure, lines 37-44) -/

/-- Number of pages to sample, `max(10, int(page_count * sample_ratio))` at
the default `sample_ratio = 0.3` (content_analyzer.py line 42).  For integer
`N`, the double product `N * 0.3` equals `3N/10 - N/(5*2^55)`; rounding to
nearest double gives back exactly `3N/10` whenever that is an integer and
otherwise a value in the open interval `(⌊3N/10⌋, ⌊3N/10⌋ + 1)`, so Python's
truncating `int(...)` computes `⌊3N/10⌋` for every page count that fits in a
double.  We embed that exact value. -/
def sample_count (page_count : Nat) : Nat :=
  max 10 (3 * page_count / 10)

/-- Sampling stride, `max(1, page_count // sample_count)`
(content_analyzer.py line 43). -/
def sample_step (page_count : Nat) : Nat :=
  max 1 (page_count / sample_count page_count)

/-- Pages selected for analysis (content_analyzer.py lines 39-44): every page
when `page_count <= 10`, otherwise Python's `range(0, page_count, step)`,
which lists `0, step, 2*step, …` strictly below `page_count` and has
`⌈page_count / step⌉` elements. -/
def pages_to_analyze (page_count : Nat) : List Nat :=
  if page_count ≤ 10 then List.range page_count
  else
    let step := sample_step page_count
    List.range' 0 ((page_count + step - 1) / step) step

/- ### content_analyzer.py — feature extraction and content-based scoring -/

/-- One text span of a line as delivered by the rendering library
(font name, font size, text). -/
structure Span where
  font : String
  size : ℚ
  text : String
deriving Repr, DecidableEq

/-- Per-line accumulation of analyze_content_structure (content_analyzer.py
lines 61-75): concatenate the stripped nonempty span texts (each followed by
a space), and collect the font name and size of every nonempty span, in span
order. -/
def lineFeatures (spans : List Span) : String × List String × List ℚ :=
  spans.foldl
    (fun acc sp =>
      let t := pyStrip sp.text
      if t = "" then acc
      else (acc.1 ++ t ++ " ", acc.2.1 ++ [sp.font], acc.2.2 ++ [sp.size]))
    ("", [], [])

/-- Modelled from the spec claim's wording only: the number of characters a
font renders on the line (sum of the stripped span-text lengths of the spans
using that font).  The source never computes this per line; it is defined
here solely to compare the claim's character-plurality rule with the
source's span-count rule. -/
def charsRenderedIn (spans : List Span) (f : String) : Nat :=
  ((spans.filter (fun sp => sp.font == f)).map (fun sp => (pyStrip sp.text).length)).sum

/-- Line's representative font (content_analyzer.py line 106):
`max(set(font_names), key=font_names.count) if font_names else "Unknown"`.
Python's set iteration order is implementation defined, so it is passed
explicitly as `set_order`; theorems quantify over every order that
enumerates the distinct fonts of the line.  The key counts *occurrences in
`font_names`*, i.e. spans, not characters. -/
def primary_font (set_order : List String) (font_names : List String) : String :=
  if font_names.isEmpty then "Unknown"
  else
    match pyMaxByKey (fun f => font_names.count f) set_order with
    | some f => f
    | none => "Unknown"

/-- Boolean structural indicators of a text line (content_analyzer.py
lines 109-121). -/
structure Indicators where
  is_short : Bool
  is_numbered : Bool
  is_uppercase : Bool
  is_title_case : Bool
  has_colon : Bool
  is_bold : Bool
  large_font : Bool
  very_large_font : Bool
  starts_sentence : Bool
  ends_period : Bool
  standalone_line : Bool
deriving Repr, DecidableEq

/-- One `if cond: score += delta` step of the scoring block. -/
def scoreStep (s : Int) (cond : Bool) (delta : Int) : Int :=
  if cond then s + delta else s

/-- Structure score accumulation (content_analyzer.py lines 123-140), in
source order: `+10` very_large_font, `+8` is_bold, `+6` large_font,
`+7` is_numbered, `+9` is_uppercase && is_short, `+5` is_title_case &&
is_short, `+4` has_colon, `+3` standalone_line, `-3` ends_period && not
is_short, `-2` word count > 15. -/
def structure_score_of (ind : Indicators) (word_count : Nat) : Int :=
  let s : Int := 0
  let s := scoreStep s ind.very_large_font 10
  let s := scoreStep s ind.is_bold 8
  let s := scoreStep s ind.large_font 6
  let s := scoreStep s ind.is_numbered 7
  let s := scoreStep s (ind.is_uppercase && ind.is_short) 9
  let s := scoreStep s (ind.is_title_case && ind.is_short) 5
  let s := scoreStep s ind.has_colon 4
  let s := scoreStep s ind.standalone_line 3
  let s := scoreStep s (ind.ends_period && !ind.is_short) (-3)
  let s := scoreStep s (decide (word_count > 15)) (-2)
  s

/-- Text element produced per analysed line (content_analyzer.py
lines 142-150). -/
structure TextElement where
  text : String
  page : Nat
  font_size : ℚ
  font_name : String
  structure_score : Int
  indicators : Indicators
  bbox : ℚ × ℚ × ℚ × ℚ
deriving Repr, DecidableEq

/-- ContentAnalyzer._analyze_text_element (content_analyzer.py lines 99-150).
Returns `none` when the text is empty or no font sizes were collected;
otherwise builds the indicator set and the additive structure score.
`set_order` models the iteration order of `set(font_names)` (see
`primary_font`). -/
def _analyze_text_element (set_order : List String) (text : String)
    (font_sizes : List ℚ) (font_names : List String) (page_num : Nat)
    (bbox : ℚ × ℚ × ℚ × ℚ) : Option TextElement :=
  if text = "" ∨ font_sizes = [] then none
  else
    let avg_font_size : ℚ := font_sizes.sum / (font_sizes.length : ℚ)
    let primary := primary_font set_order font_names
    let wc := pyWordCount text
    let ind : Indicators :=
      { is_short := decide (wc ≤ 8)
        is_numbered := isNumberedPattern text.data
        is_uppercase := pyIsUpper text.data
        is_title_case := pyIsTitle text.data
        has_colon := text.data.getLast? == some ':'
        is_bold := containsSublist "Bold".data primary.data ||
          containsSublist "bold".data (primary.data.map Char.toLower)
        large_font := decide (avg_font_size > 12)
        very_large_font := decide (avg_font_size > 16)
        starts_sentence := (match text.data with | [] => false | c :: _ => c.isUpper)
        ends_period := text.data.getLast? == some '.'
        standalone_line := decide (wc ≤ 3) }
    some { text := text, page := page_num, font_size := avg_font_size,
           font_name := primary, structure_score := structure_score_of ind wc,
           indicators := ind, bbox := bbox }

/- ### content_analyzer.py — structure-quality assessment (lines 232-287) -/

/-- Result of ContentAnalyzer._assess_structure_quality. -/
structure QualityReport where
  score : Int
  assessment : String
  notes : List String
deriving Repr, DecidableEq

/-- ContentAnalyzer._quality_assessment (content_analyzer.py lines 278-287):
the four verdict bands on the quality score. -/
def _quality_assessment (score : Int) : String :=
  if score ≥ 60 then "🟢 Excellent - Well-structured content suitable for extraction"
  else if score ≥ 40 then "🟡 Good - Some structure detected, extraction possible"
  else if score ≥ 20 then "🟠 Fair - Limited structure, manual review recommended"
  else "🔴 Poor - Minimal structure detected, not ideal for extraction"

/-- ContentAnalyzer._assess_structure_quality (content_analyzer.py
lines 232-276), as a function of the analysis state it reads: the number of
distinct fonts, the `(min, max)` font-size range, the average number of
headings per sampled page, and the structure scores of the collected
potential headings. -/
def _assess_structure_quality (total_fonts : Nat) (size_range : ℚ × ℚ)
    (avg_headings_per_page : ℚ) (potential_headings : List Int) : QualityReport :=
  let score0 : Int := 0
  let notes0 : List String := []
  let sn1 :=
    if total_fonts > 3 then
      (score0 + 20, notes0 ++ ["✅ Good font diversity suggests structured formatting"])
    else if total_fonts < 2 then
      (score0, notes0 ++ ["⚠️ Limited font variety may indicate simple structure"])
    else (score0, notes0)
  let font_range := size_range.2 - size_range.1
  let sn2 :=
    if font_range > 8 then
      (sn1.1 + 25, sn1.2 ++ ["✅ Wide font size range suggests clear hierarchy"])
    else if font_range < 4 then
      (sn1.1, sn1.2 ++ ["⚠️ Limited font size variation"])
    else sn1
  let sn3 :=
    if 1 / 2 ≤ avg_headings_per_page ∧ avg_headings_per_page ≤ 3 then
      (sn2.1 + 20, sn2.2 ++ ["✅ Good heading density for structure extraction"])
    else if avg_headings_per_page > 5 then
      (sn2.1, sn2.2 ++ ["⚠️ Very high heading density - may be over-structured"])
    else if avg_headings_per_page < 1 / 5 then
      (sn2.1, sn2.2 ++ ["⚠️ Very low heading density - limited structure detected"])
    else sn2
  let high_score_count := (potential_headings.filter (fun s => s > 10)).length
  let sn4 :=
    if potential_headings ≠ [] ∧ high_score_count > 3 then
      (sn3.1 + 15, sn3.2 ++ ["✅ Multiple high-confidence structural elements found"])
    else sn3
  { score := sn4.1, assessment := _quality_assessment sn4.1, notes := sn4.2 }

/- ### pdf_splitter.py — validation gate (lines 39-71) -/

/-- Well-formedness of one raw TOC entry (pdf_splitter.py line 63):
`len(entry) >= 3 and isinstance(entry[0], int) and isinstance(entry[2], int)`. -/
def wellFormedTocEntry (entry : List PyVal) : Bool :=
  decide (3 ≤ entry.length) &&
    ((entry.get? 0).elim false PyVal.isInt) &&
    ((entry.get? 2).elim false PyVal.isInt)

/-- DocumentSplitter._validate_document_structure, checks 1-3
(pdf_splitter.py lines 39-71): reject when the TOC is empty, has fewer than
2 entries, or fewer than 80% of its entries are well-formed.  The source
compares `valid_entries < len(self.toc) * 0.8` in double arithmetic; the
double nearest to 0.8 is `4/5 + 1/(5*2^54)`, and for an integer length `n`
of any realistic size the product `n * 0.8` rounds to a double that lies in
`[4n/5, 4n/5 + 1)`, with value exactly `4n/5` whenever that is an integer.
Hence the float comparison against the integer `valid_entries` holds exactly
when `5 * valid_entries < 4 * len(self.toc)`, which is what we embed. -/
def _validate_document_structure (toc : List (List PyVal)) : Except String Unit :=
  if toc.isEmpty then
    .error "Document Validation Failed: No table of contents found."
  else if toc.length < 2 then
    .error "Document Validation Failed: Insufficient TOC entries."
  else
    let valid_entries := (toc.filter wellFormedTocEntry).length
    if 5 * valid_entries < 4 * toc.length then
      .error "Document Validation Failed: Malformed TOC structure."
    else
      .ok ()

/- ### pdf_splitter.py — range resolver (get_chapters_at_level, lines 111-144) -/

/-- Chapter record emitted by the range resolver (pdf_splitter.py
lines 137-142). -/
structure Chapter where
  title : String
  start_page : Int
  end_page : Int
  page_count : Int
deriving Repr, DecidableEq

/-- Page-range loop of get_chapters_at_level (pdf_splitter.py lines
125-142): entry `i` ends one page before entry `i+1` starts, the last entry
ends at the document's page count, and an inverted range (`start_page >
end_page`) is forced to the single page `start_page`. -/
def pageRangeLoop (page_count : Int) : List (String × Int) → List Chapter
  | [] => []
  | (title, start_page) :: rest =>
    let end0 : Int :=
      match rest with
      | [] => page_count
      | (_, next_start) :: _ => next_start - 1
    let end_page := if start_page > end0 then start_page else end0
    { title := title, start_page := start_page, end_page := end_page,
      page_count := end_page - start_page + 1 } :: pageRangeLoop page_count rest

/-- DocumentSplitter.get_chapters_at_level (pdf_splitter.py lines 111-144)
on typed outline entries `(level, title, page)`: keep the entries of the
requested level (the source also requires `len(entry) >= 3`, automatic in
the typed model) and resolve their page ranges. -/
def get_chapters_at_level (toc : List (Int × String × Int)) (level : Int)
    (page_count : Int) : List Chapter :=
  let level_entries := (toc.filter (fun e => e.1 == level)).map (fun e => (e.2.1, e.2.2))
  pageRangeLoop page_count level_entries

/- ### sanitize_filename (toc_extractor.py lines 122-128; the textually
identical DocumentSplitter.sanitize_filename is pdf_splitter.py
lines 146-151) -/

/-- Character class kept by `re.sub(r"[^0-9a-zA-Z _-]", "", name)`. -/
def isAllowedChar (c : Char) : Bool :=
  c.isDigit || c.isAlpha || c == ' ' || c == '_' || c == '-'

/-- Python `str.replace(' ', '_')`, one character at a time. -/
def replaceSpace (c : Char) : Char :=
  if c = ' ' then '_' else c

/-- Python `re.sub(r'_+', '_', safe)`: collapse every run of underscores to
a single underscore, by dropping the first of any two adjacent
underscores. -/
def collapse_underscores : List Char → List Char
  | [] => []
  | [c] => [c]
  | c :: d :: rest =>
    if c = '_' ∧ d = '_' then collapse_underscores (d :: rest)
    else c :: collapse_underscores (d :: rest)

/-- Python `str.strip('_')`: drop leading and trailing underscores. -/
def stripUnderscore (l : List Char) : List Char :=
  ((l.dropWhile (fun c => c = '_')).reverse.dropWhile (fun c => c = '_')).reverse

/-- Character-level pipeline of `sanitize_filename`: keep `[0-9a-zA-Z _-]`,
strip surrounding whitespace, replace spaces with underscores, lowercase,
collapse underscore runs, and strip surrounding underscores. -/
def sanitizeChars (l : List Char) : List Char :=
  let safe := l.filter isAllowedChar
  let safe := stripWhitespace safe
  let safe := (safe.map replaceSpace).map Char.toLower
  let safe := collapse_underscores safe
  stripUnderscore safe

/-- `sanitize_filename` of toc_extractor.py (lines 122-128). -/
def sanitize_filename (s : String) : String :=
  ⟨sanitizeChars s.data⟩

/-- DocumentSplitter.sanitize_filename (pdf_splitter.py lines 146-151).  Its
source text is identical to toc_extractor.py's `sanitize_filename`, so the
embedding is shared. -/
def splitter_sanitize_filename (s : String) : String :=
  sanitize_filename s

/- ### Shared helper definitions for the theorems -/

/-- Specification form of the range rule of `pageRangeLoop`: chapter `i`
starts at entry `i`'s page, ends at entry `i+1`'s page minus one (or at the
total page count for the last entry), clamped up to the start page, with
`page_count = end_page - start_page + 1`. -/
def chapterSpec (entries : List (String × Int)) (P : Int) (i : Nat) : Chapter :=
  let e := entries.getD i ("", 0)
  let end0 : Int :=
    if i + 1 < entries.length then (entries.getD (i + 1) ("", 0)).2 - 1 else P
  let endp := if e.2 > end0 then e.2 else end0
  { title := e.1, start_page := e.2, end_page := endp, page_count := endp - e.2 + 1 }

/-- Character class of sanitized filenames: digits, lowercase ASCII letters,
underscore, hyphen. -/
def goodChar (c : Char) : Bool :=
  c.isDigit || c.isLower || c == '_' || c == '-'

/- ### Helper lemmas — page sampler -/

lemma lt_ceilDiv_iff {s N : Nat} (k : Nat) (hs : 0 < s) (hN : 0 < N) :
    k < (N + s - 1) / s ↔ k * s < N := by
  rw [show (k < (N + s - 1) / s) = (k + 1 ≤ (N + s - 1) / s) from rfl,
    Nat.le_div_iff_mul_le hs, Nat.succ_mul]
  generalize k * s = m
  omega

lemma sample_step_pos (N : Nat) : 0 < sample_step N :=
  Nat.lt_of_lt_of_le Nat.one_pos (Nat.le_max_left 1 _)

/- ### C5 / C6 — page sampler -/

/-- C5 (amended): for page counts N > 10 the sampler computes
`sample_count = max(10, floor(N * 0.3))` (Python `int(N * 0.3)` truncates;
it does not round) and `step = max(1, N // sample_count)`, and selects
exactly the pages `0, step, 2*step, …` strictly below N; for N ≤ 10 it
selects every page `0 .. N-1`. -/
theorem C5_page_sampler (N : Nat) :
    (N ≤ 10 → pages_to_analyze N = List.range N) ∧
    (10 < N →
      sample_count N = max 10 (3 * N / 10) ∧
      sample_step N = max 1 (N / sample_count N) ∧
      ∀ p : Nat, p ∈ pages_to_analyze N ↔ ∃ k, p = k * sample_step N ∧ p < N) := by
  constructor
  · intro h
    simp [pages_to_analyze, h]
  · intro h
    refine ⟨rfl, rfl, fun p => ?_⟩
    have hstep := sample_step_pos N
    have hN : 0 < N := by omega
    rw [pages_to_analyze, if_neg (by omega)]
    simp only [List.mem_range']
    constructor
    · rintro ⟨i, hi, rfl⟩
      refine ⟨i, by ring, ?_⟩
      have h2 := (lt_ceilDiv_iff i hstep hN).mp hi
      rw [Nat.mul_comm] at h2
      omega
    · rintro ⟨k, rfl, hk⟩
      exact ⟨k, (lt_ceilDiv_iff k hstep hN).mpr (by omega),
        by ring⟩

theorem C5_page_sampler_witness :
    10 < 13 ∧ (3 : Nat) ∈ pages_to_analyze 13 :=
  ⟨by omega,
    (((C5_page_sampler 13).2 (by omega)).2.2 3).mpr ⟨3, by decide, by decide⟩⟩

/-- C5 counterexample: the source computes `sample_count` with truncating
`int(N * 0.3)`, not with rounding.  At N = 39, `int(39 * 0.3) = 11` while
the claimed `max(10, round(39 * 0.3)) = 12`. -/
theorem C5_counterexample :
    sample_count 39 = 11 ∧
    max 10 (round ((39 : ℚ) * (3 / 10))).toNat = 12 ∧
    (11 : Nat) ≠ 12 := by
  refine ⟨rfl, ?_, by decide⟩
  have h12 : round ((39 : ℚ) * (3 / 10)) = 12 := by
    norm_num [round_eq]
  rw [h12]
  decide

/-- C6: for every total page count N (including N = 0, which yields an empty
sample), the sampler's page indices are strictly increasing (hence without
duplicates) and every selected index is strictly below N. -/
theorem C6_sampler_safety (N : Nat) :
    List.Pairwise (· < ·) (pages_to_analyze N) ∧
    (∀ p ∈ pages_to_analyze N, p < N) ∧
    pages_to_analyze 0 = [] := by
  refine ⟨?_, ?_, by decide⟩
  · rw [pages_to_analyze]
    split
    · exact List.pairwise_lt_range N
    · exact List.pairwise_lt_range' 0 _ _ (sample_step_pos N)
  · intro p hp
    rw [pages_to_analyze] at hp
    split at hp
    · exact List.mem_range.mp hp
    · rename_i hN
      have hstep := sample_step_pos N
      obtain ⟨i, hi, rfl⟩ := List.mem_range'.mp hp
      have h2 := (lt_ceilDiv_iff i hstep (by omega)).mp hi
      rw [Nat.mul_comm] at h2
      omega

theorem C6_sampler_safety_witness :
    (12 : Nat) ∈ pages_to_analyze 13 ∧ 12 < 13 :=
  ⟨by decide, (C6_sampler_safety 13).2.1 12 (by decide)⟩

/- ### C4 — validation gate -/

/-- C4: the validation checks of lines 39-71 reject a document exactly when
the TOC is empty, has fewer than 2 entries, or has strictly fewer than 80%
well-formed entries; a 2-entry TOC passes the minimum-entries check while a
1-entry TOC fails it, and a TOC with exactly 80% well-formed entries (4 of
5) passes the well-formedness check. -/
theorem C4_validation_gate (toc : List (List PyVal)) :
    ((_validate_document_structure toc).isOk = false ↔
      toc = [] ∨ toc.length < 2 ∨
        5 * (toc.filter wellFormedTocEntry).length < 4 * toc.length) ∧
    (_validate_document_structure
      [[PyVal.int 1, PyVal.str "A", PyVal.int 5],
       [PyVal.int 1, PyVal.str "B", PyVal.int 9]]).isOk = true ∧
    (_validate_document_structure
      [[PyVal.int 1, PyVal.str "A", PyVal.int 5]]).isOk = false ∧
    (_validate_document_structure
      [[PyVal.int 1, PyVal.str "A", PyVal.int 5],
       [PyVal.int 1, PyVal.str "B", PyVal.int 9],
       [PyVal.int 1, PyVal.str "C", PyVal.int 11],
       [PyVal.int 1, PyVal.str "D", PyVal.int 12],
       [PyVal.other]]).isOk = true := by
  refine ⟨?_, by decide, by decide, by decide⟩
  simp only [_validate_document_structure]
  split_ifs with h1 h2 h3
  · exact iff_of_true rfl (Or.inl (List.isEmpty_iff.mp h1))
  · exact iff_of_true rfl (Or.inr (Or.inl h2))
  · exact iff_of_true rfl (Or.inr (Or.inr h3))
  · refine iff_of_false (by simp [Except.isOk, Except.toBool]) ?_
    rintro (h | h | h)
    · exact h1 (by simp [h])
    · exact h2 h
    · exact h3 h

theorem C4_validation_gate_witness :
    (_validate_document_structure [[PyVal.int 1, PyVal.str "A", PyVal.int 5]]).isOk = false :=
  (C4_validation_gate [[PyVal.int 1, PyVal.str "A", PyVal.int 5]]).1.mpr
    (Or.inr (Or.inl (by decide)))

/- ### C8 — structure-quality score and verdict -/

set_option maxHeartbeats 1600000 in
/-- C8: the content-based quality score is the sum of the four bonus bands
(+20 for more than 3 distinct fonts, +25 for a font-size range above 8pt,
+20 for an average heading density in [0.5, 3], +15 for more than 3 headings
scoring above 10), hence at most 80; the verdict bands are ≥60 excellent,
≥40 good, ≥20 fair, otherwise poor; and the scenario with 2 distinct fonts,
a 3pt size range, density 0.1 and no high-scoring headings yields score 0
and the "poor" verdict. -/
theorem C8_quality_score (total_fonts : Nat) (size_range : ℚ × ℚ)
    (avg_headings_per_page : ℚ) (potential_headings : List Int) :
    (_assess_structure_quality total_fonts size_range avg_headings_per_page
        potential_headings).score =
      (if total_fonts > 3 then 20 else 0) +
      (if size_range.2 - size_range.1 > 8 then 25 else 0) +
      (if 1 / 2 ≤ avg_headings_per_page ∧ avg_headings_per_page ≤ 3 then 20 else 0) +
      (if potential_headings ≠ [] ∧
          (potential_headings.filter (fun s => s > 10)).length > 3 then 15 else 0) ∧
    (_assess_structure_quality total_fonts size_range avg_headings_per_page
        potential_headings).score ≤ 80 ∧
    (∀ sc : Int, 60 ≤ sc →
      _quality_assessment sc =
        "🟢 Excellent - Well-structured content suitable for extraction") ∧
    (∀ sc : Int, 40 ≤ sc → sc < 60 →
      _quality_assessment sc =
        "🟡 Good - Some structure detected, extraction possible") ∧
    (∀ sc : Int, 20 ≤ sc → sc < 40 →
      _quality_assessment sc =
        "🟠 Fair - Limited structure, manual review recommended") ∧
    (∀ sc : Int, sc < 20 →
      _quality_assessment sc =
        "🔴 Poor - Minimal structure detected, not ideal for extraction") ∧
    (_assess_structure_quality 2 (10, 13) (1 / 10) []).score = 0 ∧
    (_assess_structure_quality 2 (10, 13) (1 / 10) []).assessment =
      "🔴 Poor - Minimal structure detected, not ideal for extraction" := by
  have hscore :
      (_assess_structure_quality total_fonts size_range avg_headings_per_page
          potential_headings).score =
        (if total_fonts > 3 then 20 else 0) +
        (if size_range.2 - size_range.1 > 8 then 25 else 0) +
        (if 1 / 2 ≤ avg_headings_per_page ∧ avg_headings_per_page ≤ 3 then 20 else 0) +
        (if potential_headings ≠ [] ∧
            (potential_headings.filter (fun s => s > 10)).length > 3 then 15 else 0) := by
    simp only [_assess_structure_quality]
    split_ifs <;> norm_num
  have hsc : (_assess_structure_quality 2 (10, 13) (1 / 10) []).score = 0 := by
    simp only [_assess_structure_quality]
    norm_num
  have hae : (_assess_structure_quality 2 (10, 13) (1 / 10) []).assessment =
      _quality_assessment ((_assess_structure_quality 2 (10, 13) (1 / 10) []).score) := rfl
  refine ⟨hscore, ?_, ?_, ?_, ?_, ?_, hsc, ?_⟩
  · rw [hscore]
    split_ifs <;> norm_num
  · intro sc h
    rw [_quality_assessment, if_pos h]
  · intro sc h1 h2
    rw [_quality_assessment, if_neg (by omega), if_pos h1]
  · intro sc h1 h2
    rw [_quality_assessment, if_neg (by omega), if_neg (by omega), if_pos h1]
  · intro sc h
    rw [_quality_assessment, if_neg (by omega), if_neg (by omega), if_neg (by omega)]
  · rw [hae, hsc]
    rfl

theorem C8_quality_score_witness :
    _quality_assessment 75 =
      "🟢 Excellent - Well-structured content suitable for extraction" :=
  (C8_quality_score 0 (0, 0) 0 []).2.2.1 75 (by omega)

/- ### C3 — content-based scoring of "FIREBALL" -/

/-- C3 (amended): for the single-word line "FIREBALL" at mean font size 18pt
with a bold primary font, content-based scoring gives structure_score = 36 =
very_large_font(+10) + is_bold(+8) + large_font(+6) +
is_uppercase&&is_short(+9) + standalone_line(+3): the `large_font` bonus
(>12pt) fires additively with `very_large_font`, exactly as the spec's
scoring table states. -/
theorem C3_fireball_score :
    _analyze_text_element ["Arial-Bold"] "FIREBALL" [18] ["Arial-Bold"] 0 (0, 0, 0, 0) =
      some { text := "FIREBALL", page := 0, font_size := 18,
             font_name := "Arial-Bold", structure_score := 36,
             indicators :=
               { is_short := true, is_numbered := false, is_uppercase := true,
                 is_title_case := false, has_colon := false, is_bold := true,
                 large_font := true, very_large_font := true,
                 starts_sentence := true, ends_period := false,
                 standalone_line := true },
             bbox := (0, 0, 0, 0) } ∧
    (36 : Int) = 10 + 8 + 6 + 9 + 3 := by
  have havg : ([18] : List ℚ).sum / (([18] : List ℚ).length : ℚ) = 18 := by norm_num
  refine ⟨?_, by decide⟩
  rw [_analyze_text_element, if_neg (by simp)]
  simp only [havg]
  decide

/-- C3 counterexample: the claimed score 30 is wrong on the code; the same
input scores 36, because `large_font` (+6) also fires at 18pt. -/
theorem C3_fireball_counterexample :
    (_analyze_text_element ["Arial-Bold"] "FIREBALL" [18] ["Arial-Bold"] 0
        (0, 0, 0, 0)).map (fun e => e.structure_score) = some 36 ∧
    (_analyze_text_element ["Arial-Bold"] "FIREBALL" [18] ["Arial-Bold"] 0
        (0, 0, 0, 0)).map (fun e => e.structure_score) ≠ some 30 := by
  have havg : ([18] : List ℚ).sum / (([18] : List ℚ).length : ℚ) = 18 := by norm_num
  rw [_analyze_text_element, if_neg (by simp)]
  simp only [havg]
  exact ⟨by decide, by decide⟩

/- ### C10 — lower bound of the structure score -/

lemma scoreStep_nonneg (cond : Bool) {s d : Int} (hs : 0 ≤ s)
    (hd : 0 ≤ d) : 0 ≤ scoreStep s cond d := by
  cases cond
  · simpa [scoreStep] using hs
  · simp only [scoreStep, if_true]
    omega

lemma scoreStep_ge_add (cond : Bool) {s d : Int} (hd : d ≤ 0) :
    s + d ≤ scoreStep s cond d := by
  cases cond
  · simp only [scoreStep, Bool.false_eq_true, if_false]
    omega
  · simp [scoreStep]

/-- Lower bound for the additive score: the positive bonuses keep the
accumulator nonnegative, and the only deductions are -3 and -2. -/
lemma structure_score_of_lower_bound (ind : Indicators) (word_count : Nat) :
    -5 ≤ structure_score_of ind word_count := by
  simp only [structure_score_of]
  have h8 : (0 : Int) ≤
      scoreStep (scoreStep (scoreStep (scoreStep (scoreStep (scoreStep (scoreStep
        (scoreStep 0 ind.very_large_font 10) ind.is_bold 8) ind.large_font 6)
        ind.is_numbered 7) (ind.is_uppercase && ind.is_short) 9)
        (ind.is_title_case && ind.is_short) 5) ind.has_colon 4)
        ind.standalone_line 3 :=
    scoreStep_nonneg _ (scoreStep_nonneg _ (scoreStep_nonneg _ (scoreStep_nonneg _
      (scoreStep_nonneg _ (scoreStep_nonneg _ (scoreStep_nonneg _ (scoreStep_nonneg _
        le_rfl (by norm_num)) (by norm_num)) (by norm_num)) (by norm_num))
          (by norm_num)) (by norm_num)) (by norm_num)) (by norm_num)
  have h9 := scoreStep_ge_add (ind.ends_period && !ind.is_short)
    (s := scoreStep (scoreStep (scoreStep (scoreStep (scoreStep (scoreStep (scoreStep
      (scoreStep 0 ind.very_large_font 10) ind.is_bold 8) ind.large_font 6)
      ind.is_numbered 7) (ind.is_uppercase && ind.is_short) 9)
      (ind.is_title_case && ind.is_short) 5) ind.has_colon 4)
      ind.standalone_line 3) (d := -3) (by norm_num)
  have h10 := scoreStep_ge_add (decide (word_count > 15))
    (s := scoreStep (scoreStep (scoreStep (scoreStep (scoreStep (scoreStep (scoreStep
      (scoreStep (scoreStep 0 ind.very_large_font 10) ind.is_bold 8) ind.large_font 6)
      ind.is_numbered 7) (ind.is_uppercase && ind.is_short) 9)
      (ind.is_title_case && ind.is_short) 5) ind.has_colon 4)
      ind.standalone_line 3) (ind.ends_period && !ind.is_short) (-3)) (d := -2)
    (by norm_num)
  omega

/-- C10: every text element produced by content-based scoring has
structure_score ≥ -5, since the only deductions are -3 (ends with a period
and more than 8 words) and -2 (more than 15 words). -/
theorem C10_score_lower_bound (set_order : List String) (text : String)
    (font_sizes : List ℚ) (font_names : List String) (page_num : Nat)
    (bbox : ℚ × ℚ × ℚ × ℚ) (elem : TextElement)
    (h : _analyze_text_element set_order text font_sizes font_names page_num bbox =
      some elem) :
    -5 ≤ elem.structure_score := by
  rw [_analyze_text_element] at h
  split at h
  · exact absurd h (by simp)
  · rw [Option.some.injEq] at h
    rw [← h]
    exact structure_score_of_lower_bound _ _

theorem C10_score_lower_bound_witness :
    -5 ≤ ({ text := "A", page := 0, font_size := 12, font_name := "F",
            structure_score := 17,
            indicators :=
              { is_short := true, is_numbered := false, is_uppercase := true,
                is_title_case := true, has_colon := false, is_bold := false,
                large_font := false, very_large_font := false,
                starts_sentence := true, ends_period := false,
                standalone_line := true },
            bbox := (0, 0, 0, 0) } : TextElement).structure_score :=
  C10_score_lower_bound ["F"] "A" [12] ["F"] 0 (0, 0, 0, 0) _ (by
    have havg : ([12] : List ℚ).sum / (([12] : List ℚ).length : ℚ) = 12 := by norm_num
    rw [_analyze_text_element, if_neg (by simp)]
    simp only [havg]
    decide)

/- ### C1 / C2 — range resolver -/

lemma chapterSpec_props (entries : List (String × Int)) (P : Int) (i : Nat) :
    (chapterSpec entries P i).page_count =
      (chapterSpec entries P i).end_page - (chapterSpec entries P i).start_page + 1 ∧
    (chapterSpec entries P i).start_page ≤ (chapterSpec entries P i).end_page := by
  refine ⟨rfl, ?_⟩
  simp only [chapterSpec]
  split <;> omega

lemma pageRangeLoop_eq_map (P : Int) :
    ∀ entries : List (String × Int),
      pageRangeLoop P entries = (List.range entries.length).map (chapterSpec entries P)
  | [] => by simp [pageRangeLoop]
  | ⟨t, s⟩ :: rest => by
    have ih := pageRangeLoop_eq_map P rest
    cases rest with
    | nil => simp [pageRangeLoop, chapterSpec, List.range_succ, List.range_zero]
    | cons b rs =>
      obtain ⟨bt, bs⟩ := b
      rw [pageRangeLoop, List.length_cons, List.length_cons, List.range_succ_eq_map,
        List.map_cons, List.map_map]
      congr 1
      · simp [chapterSpec, List.getD_cons_zero, List.getD_cons_succ]
      · rw [ih, List.length_cons]
        refine List.map_congr_left fun i hi => ?_
        simp [chapterSpec, Function.comp, List.getD_cons_succ, Nat.succ_eq_add_one,
          Nat.add_lt_add_iff_right]

lemma pageRangeLoop_props (P : Int) (entries : List (String × Int)) :
    ∀ c ∈ pageRangeLoop P entries,
      c.page_count = c.end_page - c.start_page + 1 ∧ c.start_page ≤ c.end_page := by
  intro c hc
  rw [pageRangeLoop_eq_map] at hc
  obtain ⟨i, hi, rfl⟩ := List.mem_map.mp hc
  exact chapterSpec_props entries P i

/-- C1: the range resolver assigns entry i the end page
(start page of entry i+1) - 1, the last entry the document page count,
forces end_page up to start_page whenever the computed end page is smaller,
and every emitted chapter satisfies page_count = end_page - start_page + 1
≥ 1; on entries [(1,"A",7),(1,"B",7)] of a 20-page document it emits A:7-7
then B:7-20. -/
theorem C1_range_resolution (entries : List (String × Int)) (P : Int) :
    pageRangeLoop P entries = (List.range entries.length).map (chapterSpec entries P) ∧
    (∀ c ∈ pageRangeLoop P entries,
      c.page_count = c.end_page - c.start_page + 1 ∧ 1 ≤ c.page_count) ∧
    get_chapters_at_level [(1, "A", 7), (1, "B", 7)] 1 20 =
      [{ title := "A", start_page := 7, end_page := 7, page_count := 1 },
       { title := "B", start_page := 7, end_page := 20, page_count := 14 }] := by
  refine ⟨pageRangeLoop_eq_map P entries, fun c hc => ?_, by decide⟩
  obtain ⟨h1, h2⟩ := pageRangeLoop_props P entries c hc
  exact ⟨h1, by omega⟩

theorem C1_range_resolution_witness :
    ({ title := "A", start_page := 7, end_page := 7, page_count := 1 } : Chapter) ∈
      pageRangeLoop 20 [("A", 7), ("B", 7)] ∧
    (1 : Int) ≤
      ({ title := "A", start_page := 7, end_page := 7, page_count := 1 } : Chapter).page_count :=
  ⟨by decide, ((C1_range_resolution [("A", 7), ("B", 7)] 20).2.1 _ (by decide)).2⟩

lemma pageRangeLoop_start_mem (P : Int) (entries : List (String × Int)) :
    ∀ c ∈ pageRangeLoop P entries, c.start_page ∈ entries.map Prod.snd := by
  intro c hc
  rw [pageRangeLoop_eq_map] at hc
  obtain ⟨i, hi, rfl⟩ := List.mem_map.mp hc
  rw [List.mem_range] at hi
  have hs : (chapterSpec entries P i).start_page = entries[i].2 := by
    simp only [chapterSpec]
    rw [List.getD_eq_getElem _ _ hi]
  rw [hs]
  exact List.mem_map_of_mem Prod.snd (entries.getElem_mem hi)

lemma pageRangeLoop_pairwise (P : Int) :
    ∀ entries : List (String × Int),
      (entries.map Prod.snd).Chain' (· < ·) →
      List.Pairwise (fun a b => a.end_page < b.start_page) (pageRangeLoop P entries)
  | [] => fun _ => by simp [pageRangeLoop]
  | ⟨t, s⟩ :: rest => fun h => by
    have hpair : List.Pairwise (· < ·) (((t, s) :: rest).map Prod.snd) :=
      List.chain'_iff_pairwise.mp h
    rw [List.map_cons, List.pairwise_cons] at hpair
    obtain ⟨hhead, htail⟩ := hpair
    have ih := pageRangeLoop_pairwise P rest (List.chain'_iff_pairwise.mpr htail)
    cases rest with
    | nil => simp [pageRangeLoop]
    | cons b rs =>
      obtain ⟨bt, bs⟩ := b
      rw [pageRangeLoop]
      refine List.Pairwise.cons ?_ ih
      intro c hc
      have hcs := pageRangeLoop_start_mem P ((bt, bs) :: rs) c hc
      simp only [List.map_cons] at hcs
      have hsb : s < bs := hhead bs (by simp)
      rw [List.map_cons, List.pairwise_cons] at htail
      have hge : bs ≤ c.start_page := by
        rcases List.mem_cons.mp hcs with h1 | h1
        · omega
        · exact le_of_lt (htail.1 _ h1)
      dsimp only
      split <;> omega

/-- C2 (amended): provided the outline entries' pages are strictly
increasing, the emitted chapters are collectively non-overlapping (every
chapter ends strictly before the next begins, so no page index belongs to
two distinct chapters) and appear in strictly increasing page order.  When
two consecutive headings share a page, the forced `end_page = start_page`
edge case makes the shared page belong to both chapters (see the
counterexample). -/
theorem C2_chapters_nonoverlapping (entries : List (String × Int)) (P : Int)
    (hsorted : (entries.map Prod.snd).Chain' (· < ·)) :
    List.Pairwise (fun a b => a.end_page < b.start_page) (pageRangeLoop P entries) ∧
    List.Pairwise (fun a b => a.start_page < b.start_page) (pageRangeLoop P entries) ∧
    List.Pairwise (fun a b => ∀ p : Int,
      a.start_page ≤ p → p ≤ a.end_page → ¬(b.start_page ≤ p ∧ p ≤ b.end_page))
      (pageRangeLoop P entries) := by
  have h1 := pageRangeLoop_pairwise P entries hsorted
  refine ⟨h1, ?_, ?_⟩
  · refine h1.imp_of_mem (fun {a b} ha hb hr => ?_)
    have := (pageRangeLoop_props P entries a ha).2
    omega
  · refine h1.imp (fun {a b} hr => ?_)
    intro p hp1 hp2 hq
    omega

theorem C2_chapters_nonoverlapping_witness :
    (([("A", 1), ("B", 10)] : List (String × Int)).map Prod.snd).Chain' (· < ·) ∧
    List.Pairwise (fun a b : Chapter => a.end_page < b.start_page)
      (pageRangeLoop 15 [("A", 1), ("B", 10)]) := by
  have hchain : (([("A", 1), ("B", 10)] : List (String × Int)).map Prod.snd).Chain'
      (· < ·) := by
    norm_num [List.chain'_cons]
  exact ⟨hchain, (C2_chapters_nonoverlapping [("A", 1), ("B", 10)] 15 hchain).1⟩

/-- C2 counterexample: for the ascending (but not strictly increasing)
entries [("A",7),("B",7)] in a 20-page document — the spec's own same-page
scenario — page 7 belongs to both emitted chapters, so the chapters are not
collectively non-overlapping as claimed. -/
theorem C2_counterexample :
    pageRangeLoop 20 [("A", 7), ("B", 7)] =
      [{ title := "A", start_page := 7, end_page := 7, page_count := 1 },
       { title := "B", start_page := 7, end_page := 20, page_count := 14 }] ∧
    (7 : Int) ≤ 7 ∧
    ({ title := "A", start_page := 7, end_page := 7, page_count := 1 } : Chapter) ≠
      { title := "B", start_page := 7, end_page := 20, page_count := 14 } ∧
    ({ title := "A", start_page := 7, end_page := 7, page_count := 1 } : Chapter).start_page ≤ 7 ∧
    (7 : Int) ≤ ({ title := "A", start_page := 7, end_page := 7, page_count := 1 } : Chapter).end_page ∧
    ({ title := "B", start_page := 7, end_page := 20, page_count := 14 } : Chapter).start_page ≤ 7 ∧
    (7 : Int) ≤ ({ title := "B", start_page := 7, end_page := 20, page_count := 14 } : Chapter).end_page := by
  decide

/- ### C7 — the line's representative font -/

lemma pyMaxFold_spec (key : String → Nat) :
    ∀ (xs : List String) (b : String),
      (xs.foldl (fun best y => if key y > key best then y else best) b = b ∨
        xs.foldl (fun best y => if key y > key best then y else best) b ∈ xs) ∧
      key b ≤ key (xs.foldl (fun best y => if key y > key best then y else best) b) ∧
      ∀ y ∈ xs, key y ≤ key (xs.foldl (fun best y => if key y > key best then y else best) b)
  | [], b => by simp
  | y :: ys, b => by
    rw [List.foldl_cons]
    obtain ⟨hmem, hbase, hall⟩ :=
      pyMaxFold_spec key ys (if key y > key b then y else b)
    have hb : key b ≤ key (if key y > key b then y else b) := by
      split <;> omega
    have hy : key y ≤ key (if key y > key b then y else b) := by
      split <;> omega
    refine ⟨?_, le_trans hb hbase, ?_⟩
    · rcases hmem with h | h
      · rw [h]
        split
        · exact Or.inr (List.mem_cons_self y ys)
        · exact Or.inl rfl
      · exact Or.inr (List.mem_cons_of_mem y h)
    · intro z hz
      rcases List.mem_cons.mp hz with h | h
      · subst h
        exact le_trans hy hbase
      · exact hall z h

/-- C7 (amended): the representative font chosen for a line is the
plurality font by *span count* (`font_names.count`, one entry per nonempty
span), not by character count: for every iteration order of
`set(font_names)` — any list whose members are exactly the fonts occurring
in the line — the chosen font occurs in the line and no font of the line
occurs in strictly more spans.  (Ties are broken by the first maximiser in
set-iteration order, which is implementation defined, not by first
occurrence in the line.) -/
theorem C7_primary_font_plurality (set_order font_names : List String)
    (hne : font_names ≠ [])
    (henum : ∀ f, f ∈ set_order ↔ f ∈ font_names) :
    primary_font set_order font_names ∈ font_names ∧
    ∀ g ∈ font_names,
      font_names.count g ≤ font_names.count (primary_font set_order font_names) := by
  obtain ⟨a, ha⟩ := List.exists_mem_of_ne_nil font_names hne
  have hso : set_order ≠ [] := by
    intro h
    rw [h] at henum
    exact (List.not_mem_nil a) ((henum a).mpr ha)
  obtain ⟨x, xs, rfl⟩ := List.exists_cons_of_ne_nil hso
  rw [primary_font, if_neg (by simp [hne]), pyMaxByKey]
  obtain ⟨hmem, hbase, hall⟩ := pyMaxFold_spec (fun f => font_names.count f) xs x
  constructor
  · rcases hmem with h | h
    · rw [h]
      exact (henum x).mp (List.mem_cons_self x xs)
    · exact (henum _).mp (List.mem_cons_of_mem x h)
  · intro g hg
    rcases List.mem_cons.mp ((henum g).mpr hg) with h | h
    · subst h
      exact hbase
    · exact hall g h

theorem C7_primary_font_plurality_witness :
    (["F"] : List String) ≠ [] ∧
    primary_font ["F"] ["F", "F"] ∈ (["F", "F"] : List String) :=
  ⟨by decide,
    (C7_primary_font_plurality ["F"] ["F", "F"] (by decide)
      (fun f => by simp)).1⟩

/-- C7 counterexample: a line of three spans — "AAAA" in FontY, "B" and "C"
in FontX — renders 4 characters in FontY and 2 in FontX, so the claimed
character-plurality rule picks FontY; but the source counts spans
(`font_names.count`), and for both possible iteration orders of the
two-element font set it picks FontX. -/
theorem C7_counterexample :
    charsRenderedIn
      [{ font := "FontY", size := 10, text := "AAAA" },
       { font := "FontX", size := 10, text := "B" },
       { font := "FontX", size := 10, text := "C" }] "FontY" = 4 ∧
    charsRenderedIn
      [{ font := "FontY", size := 10, text := "AAAA" },
       { font := "FontX", size := 10, text := "B" },
       { font := "FontX", size := 10, text := "C" }] "FontX" = 2 ∧
    (lineFeatures
      [{ font := "FontY", size := 10, text := "AAAA" },
       { font := "FontX", size := 10, text := "B" },
       { font := "FontX", size := 10, text := "C" }]).2.1 =
      ["FontY", "FontX", "FontX"] ∧
    primary_font ["FontX", "FontY"] ["FontY", "FontX", "FontX"] = "FontX" ∧
    primary_font ["FontY", "FontX"] ["FontY", "FontX", "FontX"] = "FontX" ∧
    ("FontX" : String) ≠ "FontY" := by
  decide

/- ### C9 — character-class lemmas -/

lemma isDigit_toNat (c : Char) (h : c.isDigit = true) :
    48 ≤ c.toNat ∧ c.toNat ≤ 57 := by
  simp only [Char.isDigit, Bool.and_eq_true, decide_eq_true_eq] at h
  exact ⟨h.1, h.2⟩

lemma isLower_toNat (c : Char) (h : c.isLower = true) :
    97 ≤ c.toNat ∧ c.toNat ≤ 122 := by
  simp only [Char.isLower, Bool.and_eq_true, decide_eq_true_eq] at h
  exact ⟨h.1, h.2⟩

lemma isUpper_toNat (c : Char) (h : c.isUpper = true) :
    65 ≤ c.toNat ∧ c.toNat ≤ 90 := by
  simp only [Char.isUpper, Bool.and_eq_true, decide_eq_true_eq] at h
  exact ⟨h.1, h.2⟩

lemma toLower_eq_self_of_not_upper (c : Char)
    (h : ¬(65 ≤ c.toNat ∧ c.toNat ≤ 90)) : Char.toLower c = c := by
  simp only [Char.toLower]
  rw [if_neg h]

lemma toLower_isLower_of_isUpper (c : Char) (h : c.isUpper = true) :
    (Char.toLower c).isLower = true := by
  have hn := isUpper_toNat c h
  simp only [Char.toLower]
  rw [if_pos ⟨hn.1, hn.2⟩]
  have hv : (c.toNat + 32).isValidChar := Or.inl (by omega)
  have hval : (Char.ofNat (c.toNat + 32)).toNat = c.toNat + 32 := by
    rw [Char.ofNat, dif_pos hv]
    rfl
  simp only [Char.isLower, Bool.and_eq_true, decide_eq_true_eq]
  have h97 : (97 : UInt32).toNat = 97 := rfl
  have h122 : (122 : UInt32).toNat = 122 := rfl
  constructor
  · show (97 : UInt32).toNat ≤ (Char.ofNat (c.toNat + 32)).toNat
    rw [hval, h97]
    omega
  · show (Char.ofNat (c.toNat + 32)).toNat ≤ (122 : UInt32).toNat
    rw [hval, h122]
    omega

lemma isWhitespace_eq_false_of_ge (c : Char) (h : 33 ≤ c.toNat) :
    c.isWhitespace = false := by
  cases hw : c.isWhitespace
  · rfl
  · exfalso
    rcases (show ((c = ' ' ∨ c = '\t') ∨ c = '\x0d') ∨ c = '\n' from by
      simpa [Char.isWhitespace] using hw) with ((rfl | rfl) | rfl) | rfl
    · exact absurd h (by decide)
    · exact absurd h (by decide)
    · exact absurd h (by decide)
    · exact absurd h (by decide)

/-- Every character of the sanitized alphabet is kept by the filter, is not
a space, is already lowercase, and is not whitespace. -/
lemma goodChar_props (c : Char) (h : goodChar c = true) :
    isAllowedChar c = true ∧ replaceSpace c = c ∧ Char.toLower c = c ∧
      c.isWhitespace = false := by
  simp only [goodChar, Bool.or_eq_true, beq_iff_eq] at h
  rcases h with ((hd | hl) | rfl) | rfl
  · have hb := isDigit_toNat c hd
    refine ⟨by simp [isAllowedChar, hd], ?_, ?_, ?_⟩
    · rw [replaceSpace, if_neg (fun he => by subst he; exact absurd hb (by decide))]
    · exact toLower_eq_self_of_not_upper c (by omega)
    · exact isWhitespace_eq_false_of_ge c (by omega)
  · have hb := isLower_toNat c hl
    refine ⟨by simp [isAllowedChar, Char.isAlpha, hl], ?_, ?_, ?_⟩
    · rw [replaceSpace, if_neg (fun he => by subst he; exact absurd hb (by decide))]
    · exact toLower_eq_self_of_not_upper c (by omega)
    · exact isWhitespace_eq_false_of_ge c (by omega)
  · exact ⟨by decide, by decide, by decide, by decide⟩
  · exact ⟨by decide, by decide, by decide, by decide⟩

/-- Replacing spaces and lowercasing turns every character kept by the
filter into a character of the sanitized alphabet. -/
lemma allowed_step (d : Char) (hd : isAllowedChar d = true) :
    goodChar (Char.toLower (replaceSpace d)) = true := by
  simp only [isAllowedChar, Bool.or_eq_true, beq_iff_eq] at hd
  rcases hd with (((hdig | halpha) | rfl) | rfl) | rfl
  · have hb := isDigit_toNat d hdig
    rw [replaceSpace, if_neg (fun he => by subst he; exact absurd hb (by decide))]
    rw [toLower_eq_self_of_not_upper d (by omega)]
    simp [goodChar, hdig]
  · simp only [Char.isAlpha, Bool.or_eq_true] at halpha
    have hdne : d ≠ ' ' := by
      rcases halpha with hu | hl
      · have hb := isUpper_toNat d hu
        intro he
        subst he
        exact absurd hb (by decide)
      · have hb := isLower_toNat d hl
        intro he
        subst he
        exact absurd hb (by decide)
    rw [replaceSpace, if_neg hdne]
    rcases halpha with hu | hl
    · have := toLower_isLower_of_isUpper d hu
      simp [goodChar, this]
    · have hb := isLower_toNat d hl
      rw [toLower_eq_self_of_not_upper d (by omega)]
      simp [goodChar, hl]
  · decide
  · decide
  · decide

/- ### C9 — list-pipeline lemmas -/

lemma dropWhile_eq_self_of_all {α : Type} {p : α → Bool} :
    ∀ {l : List α}, (∀ c ∈ l, p c = false) → l.dropWhile p = l
  | [], _ => rfl
  | a :: as, h => by
    rw [List.dropWhile_cons, if_neg (by simp [h a (List.mem_cons_self a as)])]

lemma dropWhile_eq_self_of_head {α : Type} {p : α → Bool} :
    ∀ {l : List α}, (∀ x, l.head? = some x → p x = false) → l.dropWhile p = l
  | [], _ => rfl
  | a :: as, h => by
    rw [List.dropWhile_cons, if_neg (by simp [h a rfl])]

lemma mem_of_stripEnds {p : Char → Bool} {c : Char} {l : List Char}
    (h : c ∈ ((l.dropWhile p).reverse.dropWhile p).reverse) : c ∈ l := by
  rw [List.mem_reverse] at h
  have h1 := (List.dropWhile_suffix p).sublist.subset h
  rw [List.mem_reverse] at h1
  exact (List.dropWhile_suffix p).sublist.subset h1

lemma getLast?_eq_of_suffix {l₂ l₁ : List Char} (h : l₂ <:+ l₁) (hne : l₂ ≠ []) :
    l₂.getLast? = l₁.getLast? := by
  obtain ⟨t, rfl⟩ := h
  exact (List.getLast?_append_of_ne_nil t hne).symm

lemma stripUnderscore_head {l : List Char} :
    ∀ x, (stripUnderscore l).head? = some x → x ≠ '_' := by
  intro x hx
  rw [stripUnderscore, List.head?_reverse] at hx
  have hne : ((l.dropWhile (fun c => c = '_')).reverse.dropWhile (fun c => c = '_')) ≠ [] := by
    intro h0
    rw [h0] at hx
    exact Option.noConfusion hx
  rw [getLast?_eq_of_suffix (List.dropWhile_suffix _) hne, List.getLast?_reverse] at hx
  have hnp := List.head?_dropWhile_not (fun c => decide (c = '_')) l
  rw [hx] at hnp
  simpa using hnp

lemma stripUnderscore_last {l : List Char} :
    ∀ x, (stripUnderscore l).getLast? = some x → x ≠ '_' := by
  intro x hx
  rw [stripUnderscore, List.getLast?_reverse] at hx
  have hnp := List.head?_dropWhile_not (fun c => decide (c = '_'))
    ((l.dropWhile (fun c => c = '_')).reverse)
  rw [hx] at hnp
  simpa using hnp

lemma chain'_stripUnderscore {l : List Char}
    (h : l.Chain' (fun a b => ¬(a = '_' ∧ b = '_'))) :
    (stripUnderscore l).Chain' (fun a b => ¬(a = '_' ∧ b = '_')) := by
  rw [stripUnderscore]
  have swap : ∀ (a b : Char), ¬(a = '_' ∧ b = '_') → ¬(b = '_' ∧ a = '_') :=
    fun a b hab hba => hab ⟨hba.2, hba.1⟩
  have h1 := h.suffix (List.dropWhile_suffix (fun c => decide (c = '_')))
  have h2 : ((l.dropWhile (fun c => c = '_')).reverse).Chain'
      (fun a b => ¬(a = '_' ∧ b = '_')) :=
    List.chain'_reverse.mpr (h1.imp swap)
  have h3 := h2.suffix (List.dropWhile_suffix (fun c => decide (c = '_')))
  exact List.chain'_reverse.mpr (h3.imp swap)

lemma mem_collapse_underscores :
    ∀ (l : List Char), ∀ c ∈ collapse_underscores l, c ∈ l
  | [] => by simp [collapse_underscores]
  | [a] => by simp [collapse_underscores]
  | a :: d :: rest => by
    intro c hc
    rw [collapse_underscores] at hc
    split at hc
    · exact List.mem_cons_of_mem a (mem_collapse_underscores (d :: rest) c hc)
    · rcases List.mem_cons.mp hc with h | h
      · exact h ▸ List.mem_cons_self a _
      · exact List.mem_cons_of_mem a (mem_collapse_underscores (d :: rest) c h)

lemma collapse_underscores_head? :
    ∀ (l : List Char), (collapse_underscores l).head? = l.head?
  | [] => rfl
  | [a] => rfl
  | a :: d :: rest => by
    rw [collapse_underscores]
    split
    · rename_i hcd
      rw [collapse_underscores_head? (d :: rest)]
      simp [hcd.1, hcd.2]
    · rfl

lemma collapse_underscores_chain :
    ∀ (l : List Char),
      (collapse_underscores l).Chain' (fun a b => ¬(a = '_' ∧ b = '_'))
  | [] => by simp [collapse_underscores]
  | [a] => by simp [collapse_underscores]
  | a :: d :: rest => by
    rw [collapse_underscores]
    split
    · exact collapse_underscores_chain (d :: rest)
    · rename_i hcd
      rw [List.chain'_cons']
      refine ⟨?_, collapse_underscores_chain (d :: rest)⟩
      intro y hy
      rw [Option.mem_def, collapse_underscores_head? (d :: rest)] at hy
      have hyd : d = y := Option.some.inj hy
      subst hyd
      exact hcd

lemma collapse_underscores_eq_self :
    ∀ (l : List Char),
      l.Chain' (fun a b => ¬(a = '_' ∧ b = '_')) → collapse_underscores l = l
  | [] => fun _ => rfl
  | [a] => fun _ => rfl
  | a :: d :: rest => fun h => by
    rw [List.chain'_cons] at h
    obtain ⟨had, htail⟩ := h
    rw [collapse_underscores, if_neg had, collapse_underscores_eq_self (d :: rest) htail]

/- ### C9 — sanitizer invariants, fixed point, and main theorem -/

lemma sanitizeChars_good (l : List Char) :
    ∀ c ∈ sanitizeChars l, goodChar c = true := by
  intro c hc
  simp only [sanitizeChars] at hc
  rw [stripUnderscore] at hc
  have h1 := mem_of_stripEnds hc
  have h2 := mem_collapse_underscores _ c h1
  obtain ⟨c2, hc2, rfl⟩ := List.mem_map.mp h2
  obtain ⟨d, hd, rfl⟩ := List.mem_map.mp hc2
  rw [stripWhitespace] at hd
  have h3 := mem_of_stripEnds hd
  have h4 := (List.mem_filter.mp h3).2
  exact allowed_step d h4

lemma sanitizeChars_chain (l : List Char) :
    (sanitizeChars l).Chain' (fun a b => ¬(a = '_' ∧ b = '_')) := by
  simp only [sanitizeChars]
  exact chain'_stripUnderscore (collapse_underscores_chain _)

lemma sanitizeChars_head (l : List Char) :
    ∀ x, (sanitizeChars l).head? = some x → x ≠ '_' := by
  simp only [sanitizeChars]
  exact fun x hx => stripUnderscore_head x hx

lemma sanitizeChars_last (l : List Char) :
    ∀ x, (sanitizeChars l).getLast? = some x → x ≠ '_' := by
  simp only [sanitizeChars]
  exact fun x hx => stripUnderscore_last x hx

lemma sanitizeChars_fixed (l : List Char)
    (hgood : ∀ c ∈ l, goodChar c = true)
    (hchain : l.Chain' (fun a b => ¬(a = '_' ∧ b = '_')))
    (hhead : ∀ x, l.head? = some x → x ≠ '_')
    (hlast : ∀ x, l.getLast? = some x → x ≠ '_') :
    sanitizeChars l = l := by
  have hnws : ∀ c ∈ l, c.isWhitespace = false :=
    fun c hc => (goodChar_props c (hgood c hc)).2.2.2
  have hfilter : l.filter isAllowedChar = l :=
    List.filter_eq_self.mpr (fun c hc => (goodChar_props c (hgood c hc)).1)
  have hstrip : stripWhitespace l = l := by
    rw [stripWhitespace, dropWhile_eq_self_of_all hnws,
      dropWhile_eq_self_of_all (fun c hc => hnws c (List.mem_reverse.mp hc))]
    exact List.reverse_reverse l
  have hmap1 : l.map replaceSpace = l := by
    rw [List.map_congr_left (g := id)
      (fun c hc => (goodChar_props c (hgood c hc)).2.1), List.map_id]
  have hmap2 : l.map Char.toLower = l := by
    rw [List.map_congr_left (g := id)
      (fun c hc => (goodChar_props c (hgood c hc)).2.2.1), List.map_id]
  have hcollapse := collapse_underscores_eq_self l hchain
  have hstripU : stripUnderscore l = l := by
    rw [stripUnderscore,
      dropWhile_eq_self_of_head (l := l) (fun x hx => by simp [hhead x hx]),
      dropWhile_eq_self_of_head (l := l.reverse) (fun x hx => by
        rw [List.head?_reverse] at hx
        simp [hlast x hx])]
    exact List.reverse_reverse l
  simp only [sanitizeChars]
  rw [hfilter, hstrip, hmap1, hmap2, hcollapse, hstripU]

/-- C9: the filename sanitizer is idempotent, and its output consists only
of lowercase ASCII letters, digits, underscores and hyphens, with no
whitespace, no two consecutive underscores, and no leading or trailing
underscore; the textually identical copy in pdf_splitter.py agrees with it
on every input. -/
theorem C9_sanitize_idempotent (s : String) :
    sanitize_filename (sanitize_filename s) = sanitize_filename s ∧
    (∀ c ∈ (sanitize_filename s).data, goodChar c = true) ∧
    (∀ c ∈ (sanitize_filename s).data, c.isWhitespace = false) ∧
    (sanitize_filename s).data.Chain' (fun a b => ¬(a = '_' ∧ b = '_')) ∧
    (∀ x, (sanitize_filename s).data.head? = some x → x ≠ '_') ∧
    (∀ x, (sanitize_filename s).data.getLast? = some x → x ≠ '_') ∧
    splitter_sanitize_filename s = sanitize_filename s := by
  refine ⟨?_, ?_, ?_, ?_, ?_, ?_, rfl⟩
  · have hfix := sanitizeChars_fixed (sanitizeChars s.data)
      (sanitizeChars_good s.data) (sanitizeChars_chain s.data)
      (sanitizeChars_head s.data) (sanitizeChars_last s.data)
    show String.mk (sanitizeChars (sanitizeChars s.data)) = String.mk (sanitizeChars s.data)
    rw [hfix]
  · exact sanitizeChars_good s.data
  · exact fun c hc => (goodChar_props c (sanitizeChars_good s.data c hc)).2.2.2
  · exact sanitizeChars_chain s.data
  · exact sanitizeChars_head s.data
  · exact sanitizeChars_last s.data

theorem C9_sanitize_idempotent_witness :
    ('a' ∈ (sanitize_filename "Ab C").data) ∧ goodChar 'a' = true :=
  ⟨by decide, (C9_sanitize_idempotent "Ab C").2.1 'a' (by decide)⟩
